import Mathlib

/-!
Verification of the oomol-fusion-sdk-ts client library.

This file gives a shallow embedding, in Lean, of the pure control flow of the
SDK's upload and polling code (src/uploader.ts, src/index.ts, src/errors.ts,
src/types.ts) and proves the testable properties stated in the design
specification against it.

Modelling conventions:
* A binary payload (a `Blob`) is a `List Nat` of its bytes; `Blob.slice` is
  `List.drop`/`List.take`.
* JavaScript numbers that the code only ever uses as non-negative integers
  (sizes, indices, millisecond times, part numbers) are `Nat`.
* Network effects are replaced by explicit environments: a record or function
  supplying the response every request would receive.  A `fetch` that never
  settles is represented by exhausting the finite response trace.
* `Promise.all` is modelled with an explicit completion-time stamp per promise,
  so that theorems quantify over every completion order.
-/

/-- Constant MAX_FILE_SIZE from src/uploader.ts (500 MB). -/
def MAX_FILE_SIZE : Nat := 500 * 1024 * 1024

/-- Constant DEFAULT_MAX_CONCURRENT_UPLOADS from src/uploader.ts. -/
def DEFAULT_MAX_CONCURRENT_UPLOADS : Nat := 3

/-- Constant DEFAULT_MULTIPART_THRESHOLD from src/uploader.ts (5 MB). -/
def DEFAULT_MULTIPART_THRESHOLD : Nat := 5 * 1024 * 1024

/-- Constant DEFAULT_RETRIES from src/uploader.ts. -/
def DEFAULT_RETRIES : Nat := 3

/-- The FileChunk record of src/types.ts.  The TypeScript field `end` is called
`endPos` here because `end` is a Lean keyword; `data` holds the raw bytes of
the chunk. -/
structure FileChunk where
  index : Nat
  start : Nat
  endPos : Nat
  size : Nat
  data : List Nat
deriving Repr, DecidableEq

/-- Loop body of `MultipartUploader.sliceFile`:
`for (let i = 0; i < totalSize; i += chunkSize)` pushing
`{index: i/chunkSize + 1, start: i, end: min(i+chunkSize, totalSize), size, data}`.
The JavaScript loop would not terminate for `chunkSize = 0`; the extra
`0 < chunkSize` guard makes the Lean recursion total, and every theorem about
chunking assumes a positive part size (the part size is server-negotiated). -/
def sliceFileGo (file : List Nat) (chunkSize i : Nat) : List FileChunk :=
  if h : i < file.length ∧ 0 < chunkSize then
    let start := i
    let endP := min (i + chunkSize) file.length
    let size := endP - start
    { index := i / chunkSize + 1, start := start, endPos := endP, size := size,
      data := (file.drop start).take size } :: sliceFileGo file chunkSize (i + chunkSize)
  else []
termination_by file.length - i
decreasing_by omega

/-- `MultipartUploader.sliceFile` (src/uploader.ts): slice the payload into
contiguous chunks of `chunkSize` bytes, the last one possibly shorter. -/
def sliceFile (file : List Nat) (chunkSize : Nat) : List FileChunk :=
  sliceFileGo file chunkSize 0

/-- Closed form of the chunk that `sliceFile` produces at (0-based) position
`k`, used to state and prove the chunking properties. -/
def chunkSpec (file : List Nat) (P k : Nat) : FileChunk :=
  { index := k + 1, start := k * P, endPos := min ((k + 1) * P) file.length,
    size := min ((k + 1) * P) file.length - k * P,
    data := (file.drop (k * P)).take (min ((k + 1) * P) file.length - k * P) }

lemma lt_ceilDiv_iff {S P j : Nat} (hP : 0 < P) :
    j < (S + P - 1) / P ↔ j * P < S := by
  rw [Nat.lt_iff_add_one_le, Nat.le_div_iff_mul_le hP, Nat.add_mul, Nat.one_mul]
  omega

lemma sliceFileGo_eq (file : List Nat) {P : Nat} (hP : 0 < P) (j : Nat) :
    sliceFileGo file P (j * P) =
      (List.range' j ((file.length + P - 1) / P - j)).map (chunkSpec file P) := by
  by_cases h : j * P < file.length
  · have hj : j < (file.length + P - 1) / P := (lt_ceilDiv_iff hP).mpr h
    rw [sliceFileGo, dif_pos ⟨h, hP⟩]
    have hrange : (file.length + P - 1) / P - j =
        ((file.length + P - 1) / P - (j + 1)) + 1 := by omega
    rw [hrange, List.range'_succ, List.map_cons]
    have hmul : j * P + P = (j + 1) * P := by ring
    rw [hmul, sliceFileGo_eq file hP (j + 1)]
    have hdiv : j * P / P = j := Nat.mul_div_cancel j hP
    simp [chunkSpec, hdiv]
  · have hj : ¬ j < (file.length + P - 1) / P := fun hc => h ((lt_ceilDiv_iff hP).mp hc)
    rw [sliceFileGo, dif_neg (by tauto)]
    have hz : (file.length + P - 1) / P - j = 0 := by omega
    rw [hz]
    rfl
termination_by file.length - j * P
decreasing_by
  have : (j + 1) * P = j * P + P := by ring
  omega

lemma sliceFile_eq (file : List Nat) {P : Nat} (hP : 0 < P) :
    sliceFile file P =
      (List.range' 0 ((file.length + P - 1) / P)).map (chunkSpec file P) := by
  have := sliceFileGo_eq file hP 0
  simpa [sliceFile] using this

lemma sliceFileGo_sizeSum (file : List Nat) {P : Nat} (hP : 0 < P) (i : Nat) :
    ((sliceFileGo file P i).map FileChunk.size).sum = file.length - i := by
  by_cases h : i < file.length
  · rw [sliceFileGo, dif_pos ⟨h, hP⟩]
    simp only [List.map_cons, List.sum_cons]
    rw [sliceFileGo_sizeSum file hP (i + P)]
    omega
  · rw [sliceFileGo, dif_neg (by tauto)]
    simp
    omega
termination_by file.length - i
decreasing_by omega

lemma sliceFile_length (file : List Nat) {P : Nat} (hP : 0 < P) :
    (sliceFile file P).length = (file.length + P - 1) / P := by
  rw [sliceFile_eq file hP]
  simp

lemma sliceFile_getElem (file : List Nat) {P : Nat} (hP : 0 < P) (k : Nat)
    (h : k < (sliceFile file P).length) :
    (sliceFile file P)[k] = chunkSpec file P k := by
  have hlen := sliceFile_length file hP
  have hk : k < (file.length + P - 1) / P := by omega
  simp [sliceFile_eq file hP]

/-- C1 — `MultipartUploader.sliceFile` on a payload of `S` bytes with part size
`P > 0` yields exactly `⌈S/P⌉` chunks; the chunks carry dense 1-based ascending
indices; byte ranges are `[k*P, min((k+1)*P, S))`, hence contiguous and
non-overlapping (each chunk starts where the previous one ends); the sizes sum
to `S`; every chunk except possibly the last has size exactly `P` and no chunk
exceeds `P`; a zero-length payload yields zero chunks. -/
theorem c1_chunking (file : List Nat) (P : Nat) (hP : 0 < P) :
    (sliceFile file P).length = (file.length + P - 1) / P
    ∧ (∀ k, (h : k < (sliceFile file P).length) →
        (sliceFile file P)[k].index = k + 1
        ∧ (sliceFile file P)[k].start = k * P
        ∧ (sliceFile file P)[k].endPos = min ((k + 1) * P) file.length
        ∧ (sliceFile file P)[k].size = (sliceFile file P)[k].endPos - (sliceFile file P)[k].start)
    ∧ (∀ k, (h : k + 1 < (sliceFile file P).length) →
        (sliceFile file P)[k + 1].start = (sliceFile file P)[k].endPos)
    ∧ ((sliceFile file P).map FileChunk.size).sum = file.length
    ∧ (∀ k, (h : k < (sliceFile file P).length) →
        (k + 1 < (sliceFile file P).length → (sliceFile file P)[k].size = P)
        ∧ (sliceFile file P)[k].size ≤ P)
    ∧ (file.length = 0 → sliceFile file P = []) := by
  have hlen := sliceFile_length file hP
  refine ⟨hlen, ?_, ?_, ?_, ?_, ?_⟩
  · intro k h
    rw [sliceFile_getElem file hP k h]
    simp [chunkSpec]
  · intro k h
    rw [sliceFile_getElem file hP (k + 1) h, sliceFile_getElem file hP k (by omega)]
    have hk1 : k + 1 < (file.length + P - 1) / P := by omega
    have hlt : (k + 1) * P < file.length := (lt_ceilDiv_iff hP).mp hk1
    simp [chunkSpec]
    omega
  · have := sliceFileGo_sizeSum file hP 0
    simpa [sliceFile] using this
  · intro k h
    rw [sliceFile_getElem file hP k h]
    have hkP : (k + 1) * P = k * P + P := by ring
    constructor
    · intro hk1
      have hk1' : k + 1 < (file.length + P - 1) / P := by omega
      have hlt : (k + 1) * P < file.length := (lt_ceilDiv_iff hP).mp hk1'
      simp [chunkSpec]
      omega
    · simp [chunkSpec]
      omega
  · intro h0
    have : (file.length + P - 1) / P = 0 := by
      rw [h0]
      simp
      exact Nat.div_eq_of_lt (by omega)
    have : (sliceFile file P).length = 0 := by omega
    exact List.length_eq_zero.mp this

/-- Witness for C1: a 5-byte payload with part size 2 satisfies the hypothesis
`0 < 2` and yields 3 chunks whose sizes sum to 5. -/
theorem c1_chunking_witness :
    0 < 2 ∧ (sliceFile [10, 11, 12, 13, 14] 2).length = (5 + 2 - 1) / 2
    ∧ ((sliceFile [10, 11, 12, 13, 14] 2).map FileChunk.size).sum = 5 :=
  ⟨by decide, (c1_chunking [10, 11, 12, 13, 14] 2 (by decide)).1,
    (c1_chunking [10, 11, 12, 13, 14] 2 (by decide)).2.2.2.1⟩

/-- `shouldUseMultipartUpload` (src/uploader.ts): `fileSize > threshold`. -/
def shouldUseMultipartUpload (fileSize threshold : Nat) : Bool :=
  threshold < fileSize

/-- Resolution of the threshold option in `OomolFusionSDK.uploadFile`:
`uploadOptions?.multipartThreshold || 5 * 1024 * 1024` (0 is falsy in JS). -/
def resolveMultipartThreshold (o : Option Nat) : Nat :=
  match o with
  | some t => if t = 0 then DEFAULT_MULTIPART_THRESHOLD else t
  | none => DEFAULT_MULTIPART_THRESHOLD

/-- The two upload strategies `OomolFusionSDK.uploadFile` chooses between. -/
inductive UploadStrategy where
  | single
  | multipart
deriving Repr, DecidableEq

/-- Strategy selection of `OomolFusionSDK.uploadFile` followed by the size
check that both the `MultipartUploader` and the `SingleFileUploader`
constructor perform (`if (file.size > MAX_FILE_SIZE) throw new
FileTooLargeError(file.size, MAX_FILE_SIZE)`).  The constructors run before
any network request, so an error here precedes all network access; the error
payload is the `(fileSize, maxSize)` pair the `FileTooLargeError` carries. -/
def uploadFileStrategy (size threshold : Nat) : Except (Nat × Nat) UploadStrategy :=
  if shouldUseMultipartUpload size threshold then
    if MAX_FILE_SIZE < size then .error (size, MAX_FILE_SIZE) else .ok .multipart
  else
    if MAX_FILE_SIZE < size then .error (size, MAX_FILE_SIZE) else .ok .single

/-- C5 — with the default 5 MB threshold, `uploadFile` selects the single-shot
strategy for `S ≤ threshold`, the multipart strategy for
`threshold < S ≤ 500 MB`, and for `S > 500 MB` both strategy paths raise the
same `FileTooLargeError (size, MAX_FILE_SIZE)` before any network call
(the third conjunct holds for every threshold, hence on whichever path the
threshold puts the oversized payload). -/
theorem c5_strategy_selection (size : Nat) :
    (size ≤ DEFAULT_MULTIPART_THRESHOLD →
      uploadFileStrategy size DEFAULT_MULTIPART_THRESHOLD = .ok .single)
    ∧ (DEFAULT_MULTIPART_THRESHOLD < size → size ≤ MAX_FILE_SIZE →
      uploadFileStrategy size DEFAULT_MULTIPART_THRESHOLD = .ok .multipart)
    ∧ (∀ threshold, MAX_FILE_SIZE < size →
      uploadFileStrategy size threshold = .error (size, MAX_FILE_SIZE))
    ∧ resolveMultipartThreshold none = 5 * 1024 * 1024 := by
  refine ⟨?_, ?_, ?_, rfl⟩
  · intro h
    have hs : shouldUseMultipartUpload size DEFAULT_MULTIPART_THRESHOLD = false := by
      simp [shouldUseMultipartUpload]
      omega
    have hle : ¬ MAX_FILE_SIZE < size := by
      simp only [DEFAULT_MULTIPART_THRESHOLD] at h
      simp only [MAX_FILE_SIZE]
      omega
    simp [uploadFileStrategy, hs, hle]
  · intro h1 h2
    have hs : shouldUseMultipartUpload size DEFAULT_MULTIPART_THRESHOLD = true := by
      simp [shouldUseMultipartUpload]
      omega
    have hle : ¬ MAX_FILE_SIZE < size := by omega
    simp [uploadFileStrategy, hs, hle]
  · intro threshold h
    by_cases hs : shouldUseMultipartUpload size threshold <;>
      simp [uploadFileStrategy, hs, h]

/-- Witness for C5: 1 byte stays single-shot, 6 MB goes multipart, 501 MB is
rejected with the carried pair `(size, MAX_FILE_SIZE)` on an arbitrary
threshold. -/
theorem c5_strategy_selection_witness :
    uploadFileStrategy 1 DEFAULT_MULTIPART_THRESHOLD = .ok .single
    ∧ uploadFileStrategy (6 * 1024 * 1024) DEFAULT_MULTIPART_THRESHOLD = .ok .multipart
    ∧ uploadFileStrategy (501 * 1024 * 1024) 1 = .error (501 * 1024 * 1024, MAX_FILE_SIZE) :=
  ⟨(c5_strategy_selection 1).1 (by decide),
   (c5_strategy_selection (6 * 1024 * 1024)).2.1 (by decide) (by decide),
   (c5_strategy_selection (501 * 1024 * 1024)).2.2.1 1 (by decide)⟩

/-- Task states of src/types.ts (`TaskState`). -/
inductive TaskState where
  | pending
  | processing
  | completed
  | failed
  | error
deriving Repr, DecidableEq

/-- A JavaScript value as far as the polling loop inspects one: only its
truthiness matters (`if (!result.data)`). -/
inductive JSVal where
  | str (s : String)
  | num (n : Int)
  | bool (b : Bool)
  | null
  | obj (id : Nat)
deriving Repr, DecidableEq

/-- JavaScript falsiness of a value: `''`, `0`, `false` and `null` are falsy;
every object is truthy. -/
def JSVal.falsy : JSVal → Bool
  | .str s => s = ""
  | .num n => n = 0
  | .bool b => !b
  | .null => true
  | .obj _ => false

/-- JavaScript falsiness of an optional field: an absent field
(`undefined`) is falsy. -/
def jsFalsyOpt : Option JSVal → Bool
  | none => true
  | some v => v.falsy

/-- `TaskResultResponse` of src/types.ts: the body of one status read. -/
structure TaskResultResponse where
  state : TaskState
  data : Option JSVal
  error : Option String
  progress : Option Nat
deriving Repr, DecidableEq

/-- `result.error || default`: an absent or empty-string (falsy) message is
replaced by the default. -/
def jsOrDefault (o : Option String) (d : String) : String :=
  match o with
  | some e => if e = "" then d else e
  | none => d

/-- How one run of the polling loop ends. -/
inductive PollResult where
  | resolved (data : JSVal)
  | timedOut (timeout : Nat)
  | taskFailed (msg : String) (state : TaskState)
  | pollsExhausted
deriving Repr, DecidableEq

/-- `OomolFusionSDK.waitForResult` (src/index.ts), the loop shared by `run` and
`waitFor`, modelled over a finite trace: the k-th trace element is the pair of
the wall-clock time `Date.now()` observes at the top of poll iteration k and
the status that iteration's subsequent read returns.  `acc` accumulates the
values passed to the caller's progress callback; `timedOut` carries the
`timeout` field of the thrown `TaskTimeoutError`, which the constructor sets
to the configured `this.timeout`; `taskFailed` stands for a `TaskFailedError`
carrying the message and the literal state.  A trace that ends while the task
is still non-terminal maps to `pollsExhausted` (the JS promise would simply
still be pending).  Nat subtraction `now - startTime` agrees with the JS
comparison `Date.now() - startTime > this.timeout` whenever `now ≥ startTime`,
and both fail the comparison when `now < startTime`. -/
def waitForResultGo (timeout startTime : Nat) (acc : List Nat) :
    List (Nat × TaskResultResponse) → List Nat × PollResult
  | [] => (acc, .pollsExhausted)
  | (now, r) :: rest =>
    if timeout < now - startTime then (acc, .timedOut timeout)
    else
      let acc' := acc ++ (match r.progress with | some p => [p] | none => [])
      match r.state with
      | .completed =>
          if jsFalsyOpt r.data then
            (acc', .taskFailed "Task completed but no data returned" .completed)
          else (acc' ++ [100], .resolved (r.data.getD .null))
      | .failed => (acc', .taskFailed (jsOrDefault r.error "Task failed: failed") .failed)
      | .error => (acc', .taskFailed (jsOrDefault r.error "Task failed: error") .error)
      | _ => waitForResultGo timeout startTime acc' rest

/-- `waitForResult` started with an empty progress history. -/
def waitForResult (timeout startTime : Nat)
    (trace : List (Nat × TaskResultResponse)) : List Nat × PollResult :=
  waitForResultGo timeout startTime [] trace

/-- C6 — at every iteration of the polling loop (any progress history `acc`,
any remaining trace), the timeout test runs at the top, before the status
read: if the elapsed wall-clock time exceeds the configured timeout, the loop
rejects with a `TaskTimeoutError` whose carried timeout equals the configured
value, emits no further progress, and the pending status `r` — even a
successful completion — is never examined. -/
theorem c6_timeout_checked_first (timeout startTime : Nat) (acc : List Nat)
    (now : Nat) (r : TaskResultResponse) (rest : List (Nat × TaskResultResponse))
    (h : timeout < now - startTime) :
    waitForResultGo timeout startTime acc ((now, r) :: rest) = (acc, .timedOut timeout) := by
  simp [waitForResultGo, h]

/-- Witness for C6: a 1000 ms timeout with an iteration starting at elapsed
time 1001 ms times out at once, even though the read would have returned a
completed status with data. -/
theorem c6_timeout_checked_first_witness :
    (1000 : Nat) < 1001 - 0
    ∧ waitForResultGo 1000 0 []
        [(1001, ⟨.completed, some (.str "img"), none, some 50⟩)] = ([], .timedOut 1000) :=
  ⟨by decide, c6_timeout_checked_first 1000 0 [] 1001
    ⟨.completed, some (.str "img"), none, some 50⟩ [] (by decide)⟩

/-- C7 — a status read that returns state `completed` with no `data` payload
makes the polling loop reject with the "completed but no data" task-failure
error instead of resolving. -/
theorem c7_completed_without_data (timeout startTime : Nat) (acc : List Nat)
    (now : Nat) (err : Option String) (prog : Option Nat)
    (rest : List (Nat × TaskResultResponse))
    (h : now - startTime ≤ timeout) :
    waitForResultGo timeout startTime acc ((now, ⟨.completed, none, err, prog⟩) :: rest) =
      (acc ++ (match prog with | some p => [p] | none => []),
        .taskFailed "Task completed but no data returned" .completed) := by
  have h' : ¬ timeout < now - startTime := by omega
  simp [waitForResultGo, h', jsFalsyOpt]

/-- Witness for C7: within the timeout, a completed status carrying no data
rejects with the task-failure error. -/
theorem c7_completed_without_data_witness :
    (5 : Nat) - 0 ≤ 1000
    ∧ waitForResultGo 1000 0 [] [(5, ⟨.completed, none, none, none⟩)] =
        ([], .taskFailed "Task completed but no data returned" .completed) :=
  ⟨by decide, c7_completed_without_data 1000 0 [] 5 none none [] (by decide)⟩

/-- C10 — the "no data" test is `if (!result.data)`, JavaScript falsiness, not
absence: a completed status whose `data` field is present but falsy (empty
string, `0`, `false`, `null`) also rejects with the "completed but no data"
task-failure error instead of resolving with that value. -/
theorem c10_falsy_data_rejected (timeout startTime : Nat) (acc : List Nat)
    (now : Nat) (v : JSVal) (err : Option String) (prog : Option Nat)
    (rest : List (Nat × TaskResultResponse))
    (h : now - startTime ≤ timeout) (hv : v.falsy = true) :
    waitForResultGo timeout startTime acc ((now, ⟨.completed, some v, err, prog⟩) :: rest) =
      (acc ++ (match prog with | some p => [p] | none => []),
        .taskFailed "Task completed but no data returned" .completed) := by
  have h' : ¬ timeout < now - startTime := by omega
  simp [waitForResultGo, h', jsFalsyOpt, hv]

/-- Witness for C10: a completed status with `data = ""` (present, falsy)
rejects rather than resolving with the empty string; likewise `0` and
`false`. -/
theorem c10_falsy_data_rejected_witness :
    ((5 : Nat) - 0 ≤ 1000 ∧ JSVal.falsy (.str "") = true)
    ∧ waitForResultGo 1000 0 [] [(5, ⟨.completed, some (.str ""), none, none⟩)] =
        ([], .taskFailed "Task completed but no data returned" .completed)
    ∧ waitForResultGo 1000 0 [] [(5, ⟨.completed, some (.num 0), none, none⟩)] =
        ([], .taskFailed "Task completed but no data returned" .completed)
    ∧ waitForResultGo 1000 0 [] [(5, ⟨.completed, some (.bool false), none, none⟩)] =
        ([], .taskFailed "Task completed but no data returned" .completed) :=
  ⟨⟨by decide, by decide⟩,
   c10_falsy_data_rejected 1000 0 [] 5 (.str "") none none [] (by decide) (by decide),
   c10_falsy_data_rejected 1000 0 [] 5 (.num 0) none none [] (by decide) (by decide),
   c10_falsy_data_rejected 1000 0 [] 5 (.bool false) none none [] (by decide) (by decide)⟩

/-- Resolution of the retry option in the `SingleFileUploader` constructor:
`options?.retries || DEFAULT_RETRIES` (0 is falsy in JS). -/
def resolveRetries (o : Option Nat) : Nat :=
  match o with
  | some r => if r = 0 then DEFAULT_RETRIES else r
  | none => DEFAULT_RETRIES

/-- Observable trace of one `SingleFileUploader.uploadToCloud` run:
how many attempts ran, the `setTimeout` delays (ms) awaited between
consecutive attempts, the values handed to the progress callback (the
single-shot path passes a bare number, never the structured
`UploadProgress`), and the final outcome.  The error message in the code
additionally appends the last failure's own message, which the environment
below does not track. -/
structure SingleShotTrace where
  attemptsMade : Nat
  delays : List Nat
  progressEvents : List Nat
  outcome : Except String Unit
deriving Repr

/-- `SingleFileUploader.uploadToCloud` (src/uploader.ts):
`for (let attempt = 1; attempt <= retries; attempt++)`; a successful POST
calls `onProgress(100)` and returns; a failed attempt rethrows a
`FileUploadError` when `attempt === retries` and otherwise awaits
`setTimeout(1000 * attempt)` and retries.  `ok i` tells whether attempt `i`
succeeds.  When the loop exhausts without entering the body (only possible
for `retries < 1`, which `resolveRetries` never produces) the JS function
returns `undefined`, i.e. resolves. -/
def uploadToCloudGo (retries : Nat) (ok : Nat → Bool) (attempt : Nat) : SingleShotTrace :=
  if h : retries < attempt then
    { attemptsMade := 0, delays := [], progressEvents := [], outcome := .ok () }
  else if ok attempt then
    { attemptsMade := 1, delays := [], progressEvents := [100], outcome := .ok () }
  else if attempt = retries then
    { attemptsMade := 1, delays := [], progressEvents := [],
      outcome := .error ("File upload failed after " ++ toString retries ++ " retries") }
  else
    let rest := uploadToCloudGo retries ok (attempt + 1)
    { attemptsMade := rest.attemptsMade + 1,
      delays := 1000 * attempt :: rest.delays,
      progressEvents := rest.progressEvents,
      outcome := rest.outcome }
termination_by retries + 1 - attempt
decreasing_by omega

/-- `uploadToCloud` starts at attempt 1. -/
def uploadToCloud (retries : Nat) (ok : Nat → Bool) : SingleShotTrace :=
  uploadToCloudGo retries ok 1

lemma uploadToCloudGo_attempts (retries : Nat) (ok : Nat → Bool) (attempt : Nat) :
    (uploadToCloudGo retries ok attempt).attemptsMade ≤ retries + 1 - attempt := by
  by_cases h : retries < attempt
  · rw [uploadToCloudGo, dif_pos h]
    simp
  · rw [uploadToCloudGo, dif_neg h]
    by_cases h1 : ok attempt
    · rw [if_pos h1]
      simp
      omega
    · rw [if_neg h1]
      by_cases h2 : attempt = retries
      · rw [if_pos h2]
        simp
        omega
      · rw [if_neg h2]
        have := uploadToCloudGo_attempts retries ok (attempt + 1)
        simp
        omega
termination_by retries + 1 - attempt
decreasing_by omega

lemma uploadToCloudGo_first_success (retries : Nat) (ok : Nat → Bool) (attempt j : Nat)
    (ha : attempt ≤ j) (hj : j ≤ retries)
    (hfail : ∀ i, attempt ≤ i → i < j → ok i = false) (hok : ok j = true) :
    uploadToCloudGo retries ok attempt =
      { attemptsMade := j + 1 - attempt,
        delays := (List.range' attempt (j - attempt)).map (1000 * ·),
        progressEvents := [100], outcome := .ok () } := by
  have hnot : ¬ retries < attempt := by omega
  rw [uploadToCloudGo, dif_neg hnot]
  by_cases heq : attempt = j
  · subst heq
    rw [if_pos hok]
    have h1 : attempt + 1 - attempt = 1 := by omega
    have h0 : attempt - attempt = 0 := by omega
    rw [h1, h0]
    rfl
  · have hlt : attempt < j := by omega
    have hfa : ok attempt = false := hfail attempt (le_refl _) hlt
    have hne : attempt ≠ retries := by omega
    rw [if_neg (by simp [hfa]), if_neg hne]
    rw [uploadToCloudGo_first_success retries ok (attempt + 1) j (by omega) hj
      (fun i h1 h2 => hfail i (by omega) h2) hok]
    have hr : j - attempt = (j - (attempt + 1)) + 1 := by omega
    rw [hr, List.range'_succ]
    simp
    omega
termination_by retries + 1 - attempt
decreasing_by omega

lemma uploadToCloudGo_all_fail (retries : Nat) (ok : Nat → Bool) (attempt : Nat)
    (ha : 1 ≤ attempt) (hle : attempt ≤ retries)
    (hfail : ∀ i, attempt ≤ i → i ≤ retries → ok i = false) :
    (uploadToCloudGo retries ok attempt).outcome =
      .error ("File upload failed after " ++ toString retries ++ " retries")
    ∧ (uploadToCloudGo retries ok attempt).attemptsMade = retries + 1 - attempt
    ∧ (uploadToCloudGo retries ok attempt).progressEvents = [] := by
  have hnot : ¬ retries < attempt := by omega
  rw [uploadToCloudGo, dif_neg hnot]
  have hfa : ok attempt = false := hfail attempt (le_refl _) hle
  by_cases heq : attempt = retries
  · subst heq
    simp [hfa]
  · have := uploadToCloudGo_all_fail retries ok (attempt + 1) (by omega) (by omega)
      (fun i h1 h2 => hfail i (by omega) h2)
    rw [if_neg (by simp [hfa]), if_neg heq]
    simp [this.1, this.2.1, this.2.2]
    omega
termination_by retries + 1 - attempt
decreasing_by omega

/-- C8 — the single-shot cloud upload makes at most `retries` attempts
(`retries` defaults to 3); if the first success is at attempt `j`, exactly `j`
attempts run, the delays awaited between consecutive attempts are
`1000·1, 1000·2, …, 1000·(j-1)` ms (linear backoff: attempt index × 1000 ms),
the progress callback fires exactly once with the bare scalar 100, and the
upload resolves — in particular 2 induced failures with `retries = 3` succeed
on the 3rd attempt; if all `retries` attempts fail the upload rejects with a
`FileUploadError` and the callback never fires. -/
theorem c8_single_shot_retry (retries : Nat) (ok : Nat → Bool) :
    (uploadToCloud retries ok).attemptsMade ≤ retries
    ∧ (∀ j, 1 ≤ j → j ≤ retries → (∀ i, 1 ≤ i → i < j → ok i = false) → ok j = true →
        uploadToCloud retries ok =
          { attemptsMade := j,
            delays := (List.range' 1 (j - 1)).map (1000 * ·),
            progressEvents := [100], outcome := .ok () })
    ∧ ((1 ≤ retries → (∀ i, 1 ≤ i → i ≤ retries → ok i = false) →
        (uploadToCloud retries ok).outcome =
          .error ("File upload failed after " ++ toString retries ++ " retries")
        ∧ (uploadToCloud retries ok).attemptsMade = retries
        ∧ (uploadToCloud retries ok).progressEvents = []))
    ∧ resolveRetries none = 3 := by
  refine ⟨?_, ?_, ?_, rfl⟩
  · have := uploadToCloudGo_attempts retries ok 1
    simpa [uploadToCloud] using this
  · intro j h1 h2 hfail hok
    have := uploadToCloudGo_first_success retries ok 1 j h1 h2
      (fun i hi1 hi2 => hfail i hi1 hi2) hok
    simpa [uploadToCloud, Nat.add_sub_cancel] using this
  · intro hr hfail
    have := uploadToCloudGo_all_fail retries ok 1 (le_refl _) hr hfail
    simpa [uploadToCloud, Nat.add_sub_cancel] using this

/-- Witness for C8: with `retries = 3` and attempts 1 and 2 failing, the upload
succeeds on the 3rd attempt, waits 1000 ms then 2000 ms between attempts, and
reports 100 exactly once; with every attempt failing it rejects. -/
theorem c8_single_shot_retry_witness :
    uploadToCloud 3 (fun i => decide (i = 3)) =
      { attemptsMade := 3, delays := [1000, 2000],
        progressEvents := [100], outcome := .ok () }
    ∧ (uploadToCloud 3 (fun _ => false)).outcome =
        .error "File upload failed after 3 retries" := by
  constructor
  · have := (c8_single_shot_retry 3 (fun i => decide (i = 3))).2.1 3 (by decide) (by decide)
      (by intro i h1 h2; simp; omega) (by decide)
    simpa using this
  · have := (c8_single_shot_retry 3 (fun _ => false)).2.2.1 (by decide)
      (by intro i h1 h2; rfl)
    exact this.1

/-- `Math.round((uploadedBytes / totalBytes) * 100)` over exact rationals:
`⌊100·u/t + 1/2⌋ = ⌊(200·u + t) / (2·t)⌋`, matching JavaScript's
round-half-up for non-negative arguments.  For `totalBytes = 0` JavaScript
yields `NaN`; the pipeline never emits a progress event then (a zero-byte
payload has zero chunks, hence zero batches), and the model returns 0. -/
def roundPercent (uploadedBytes totalBytes : Nat) : Nat :=
  if totalBytes = 0 then 0 else (200 * uploadedBytes + totalBytes) / (2 * totalBytes)

lemma roundPercent_mono {u v : Nat} (t : Nat) (h : u ≤ v) :
    roundPercent u t ≤ roundPercent v t := by
  unfold roundPercent
  by_cases ht : t = 0
  · simp [ht]
  · simp [ht]
    exact Nat.div_le_div_right (by omega)

/-- `PresignedUrlResponse` of src/types.ts. -/
structure PresignedUrlResponse where
  partNumber : Nat
  uploadURL : String
deriving Repr, DecidableEq

/-- A `{partNumber, etag}` pair as collected by `uploadChunk` and passed to
the complete-multipart-upload call.  The etag is stored after the code's
`etag.replace(/"/g, '')` quote-stripping. -/
structure UploadedPart where
  partNumber : Nat
  etag : String
deriving Repr, DecidableEq

/-- `UploadProgress` of src/types.ts. -/
structure UploadProgress where
  uploadedBytes : Nat
  totalBytes : Nat
  percentage : Nat
  uploadedChunks : Nat
  totalChunks : Nat
deriving Repr, DecidableEq

/-- Environment response to the PUT of one part: `time` is an abstract
completion-time stamp (used only to decide which rejection `Promise.all`
reports first, so theorems quantify over every completion order), `ok` is
`response.ok`, and `etag` is the ETag header, absent when the storage backend
returns none. -/
structure PartPutResponse where
  time : Nat
  ok : Bool
  etag : Option String

/-- Errors of the multipart path: a JavaScript `TypeError` (reading
`.uploadURL` of `undefined`) or a `FileUploadError` message. -/
inductive UploadErr where
  | typeErr (msg : String)
  | fileUploadErr (msg : String)
deriving Repr, DecidableEq

/-- `MultipartUploader.uploadChunk` (src/uploader.ts): PUT the chunk bytes to
its signed URL; a non-ok response or a missing ETag header rejects with a
`FileUploadError` whose message names the chunk index; a success resolves
with `{partNumber: chunk.index, etag}`. -/
def uploadChunk (env : Nat → PartPutResponse) (chunk : FileChunk) : Except String UploadedPart :=
  if (env chunk.index).ok then
    match (env chunk.index).etag with
    | some e => .ok { partNumber := chunk.index, etag := e }
    | none => .error ("Chunk " ++ toString chunk.index ++ " upload failed: ETag not returned in upload response")
  else
    .error ("Chunk " ++ toString chunk.index ++ " upload failed")

/-- One fold step of `firstRejection`: keep the earliest-completing rejection
seen so far. -/
def promiseStep (acc : Option (Nat × String)) (p : Nat × Except String α) :
    Option (Nat × String) :=
  match p.2 with
  | .ok _ => acc
  | .error e =>
    match acc with
    | none => some (p.1, e)
    | some q => if p.1 < q.1 then some (p.1, e) else some q

/-- The earliest-completing rejection among a list of promises, each given as
(completion time, settled result); ties go to the earlier list position. -/
def firstRejection (ps : List (Nat × Except String α)) : Option String :=
  (ps.foldl promiseStep none).map (·.2)

/-- `Promise.all`: if every promise fulfils, the result array holds the
values in input order — independent of completion times; otherwise it rejects
with the earliest-completing rejection. -/
def promiseAll (ps : List (Nat × Except String α)) : Except String (List α) :=
  match firstRejection ps with
  | some e => .error e
  | none => .ok (ps.filterMap (fun p => p.2.toOption))

/-- Whether the environment lets the part PUT for chunk `c` succeed with an
ETag present. -/
def uploadOk (env : Nat → PartPutResponse) (c : FileChunk) : Bool :=
  (env c.index).ok && (env c.index).etag.isSome

/-- The `{partNumber, etag}` pair a successful part upload records. -/
def etagValue (env : Nat → PartPutResponse) (c : FileChunk) : UploadedPart :=
  { partNumber := c.index, etag := ((env c.index).etag).getD "" }

/-- Loop body of `MultipartUploader.uploadChunksConcurrently`
(src/uploader.ts): `for (let i = 0; i < chunks.length; i += K)` with
`batch = chunks.slice(i, i+K)` and `urlBatch = sortedUrls.slice(i, i+K)`.
Building the batch's promises evaluates `urlBatch[index].uploadURL`; when the
batch is longer than `urlBatch` this throws a `TypeError` synchronously,
outside the `try`, so it is not converted to a `FileUploadError` here.  A
rejected `Promise.all` is caught and wrapped into
`FileUploadError('Batch upload failed: …')`.  After a fully successful batch
the cumulative progress event is pushed (this models the callback invocations
made when an `onProgress` callback is installed).  Returns the events emitted
together with the collected parts or the error that aborted the loop.
The JS loop would not advance for `K = 0`; `K` is
`options?.maxConcurrentUploads || 3`, always positive (see
`resolveMaxConcurrentUploads`), and the `K = 0` guard case is unreachable. -/
def uploadBatchesGo (env : Nat → PartPutResponse) (K totalBytes totalChunks : Nat)
    (chunks : List FileChunk) (urls : List PresignedUrlResponse)
    (results : List UploadedPart) (uploadedBytes : Nat) (events : List UploadProgress) :
    List UploadProgress × Except UploadErr (List UploadedPart) :=
  if hstop : chunks = [] ∨ K = 0 then
    (events, .ok results)
  else
    if (urls.take K).length < (chunks.take K).length then
      (events, .error (.typeErr "Cannot read properties of undefined (reading uploadURL)"))
    else
      match promiseAll ((chunks.take K).map fun c => ((env c.index).time, uploadChunk env c)) with
      | .error e => (events, .error (.fileUploadErr ("Batch upload failed: " ++ e)))
      | .ok batchResults =>
        uploadBatchesGo env K totalBytes totalChunks (chunks.drop K) (urls.drop K)
          (results ++ batchResults)
          (uploadedBytes + ((chunks.take K).map FileChunk.size).sum)
          (events ++ [UploadProgress.mk
            (uploadedBytes + ((chunks.take K).map FileChunk.size).sum)
            totalBytes
            (roundPercent (uploadedBytes + ((chunks.take K).map FileChunk.size).sum) totalBytes)
            (results ++ batchResults).length
            totalChunks])
termination_by chunks.length
decreasing_by
  simp only [List.length_drop]
  have h1 : chunks ≠ [] := by tauto
  have h2 : K ≠ 0 := by tauto
  have := List.length_pos.mpr h1
  omega

/-- `MultipartUploader.uploadChunksConcurrently`: sorts the presigned URLs
ascending by part number (JavaScript `Array.prototype.sort` is stable;
`mergeSort` is the stable sort), then uploads batch by batch.
`totalBytes` is `this.file.size` and `totalChunks` is `chunks.length`. -/
def uploadChunksConcurrently (env : Nat → PartPutResponse) (K fileSize : Nat)
    (chunks : List FileChunk) (presignedUrls : List PresignedUrlResponse) :
    List UploadProgress × Except UploadErr (List UploadedPart) :=
  let sortedUrls := presignedUrls.mergeSort (fun a b => a.partNumber ≤ b.partNumber)
  uploadBatchesGo env K fileSize chunks.length chunks sortedUrls [] 0 []

/-- Resolution of the concurrency option in the `MultipartUploader`
constructor: `options?.maxConcurrentUploads || DEFAULT_MAX_CONCURRENT_UPLOADS`
(0 is falsy in JS), so the effective limit is always positive. -/
def resolveMaxConcurrentUploads (o : Option Nat) : Nat :=
  match o with
  | some k => if k = 0 then DEFAULT_MAX_CONCURRENT_UPLOADS else k
  | none => DEFAULT_MAX_CONCURRENT_UPLOADS

/-- The batches the scheduler forms: successive slices of at most `K` chunks,
in order. -/
def toBatches (K : Nat) (chunks : List FileChunk) : List (List FileChunk) :=
  if hstop : chunks = [] ∨ K = 0 then []
  else chunks.take K :: toBatches K (chunks.drop K)
termination_by chunks.length
decreasing_by
  simp only [List.length_drop]
  have h1 : chunks ≠ [] := by tauto
  have h2 : K ≠ 0 := by tauto
  have := List.length_pos.mpr h1
  omega

/-- The progress events a fully successful run emits, starting from
already-uploaded totals `ub` bytes and `n` chunks. -/
def batchEventsSpec (totalBytes totalChunks K : Nat) (chunks : List FileChunk)
    (ub n : Nat) : List UploadProgress :=
  if hstop : chunks = [] ∨ K = 0 then []
  else
    { uploadedBytes := ub + ((chunks.take K).map FileChunk.size).sum,
      totalBytes := totalBytes,
      percentage := roundPercent (ub + ((chunks.take K).map FileChunk.size).sum) totalBytes,
      uploadedChunks := n + (chunks.take K).length, totalChunks := totalChunks } ::
      batchEventsSpec totalBytes totalChunks K (chunks.drop K)
        (ub + ((chunks.take K).map FileChunk.size).sum) (n + (chunks.take K).length)
termination_by chunks.length
decreasing_by
  simp only [List.length_drop]
  have h1 : chunks ≠ [] := by tauto
  have h2 : K ≠ 0 := by tauto
  have := List.length_pos.mpr h1
  omega

lemma uploadChunk_eq_ok {env : Nat → PartPutResponse} {c : FileChunk}
    (h : uploadOk env c = true) : uploadChunk env c = .ok (etagValue env c) := by
  unfold uploadOk at h
  unfold uploadChunk etagValue
  cases hok : (env c.index).ok
  · simp [hok] at h
  · cases he : (env c.index).etag
    · simp [hok, he] at h
    · simp [hok, he]

lemma uploadChunk_ok_partNumber {env : Nat → PartPutResponse} {c : FileChunk}
    {a : UploadedPart} (h : uploadChunk env c = .ok a) : a.partNumber = c.index := by
  unfold uploadChunk at h
  cases hok : (env c.index).ok <;> rw [hok] at h
  · simp at h
  · cases he : (env c.index).etag <;> rw [he] at h
    · simp at h
    · simp at h
      rw [← h]

lemma toOption_ok {α : Type} (a : α) :
    (Except.ok a : Except String α).toOption = some a := rfl

lemma foldl_promiseStep_of_ok {α : Type} (ps : List (Nat × Except String α))
    (acc : Option (Nat × String)) (h : ∀ p ∈ ps, ∃ a, p.2 = Except.ok a) :
    ps.foldl promiseStep acc = acc := by
  induction ps generalizing acc with
  | nil => rfl
  | cons p rest ih =>
    obtain ⟨a, ha⟩ := h p (by simp)
    rw [List.foldl_cons]
    have hstep : promiseStep acc p = acc := by
      unfold promiseStep
      rw [ha]
    rw [hstep]
    exact ih acc (fun q hq => h q (by simp [hq]))

lemma foldl_promiseStep_eq_none {α : Type} (ps : List (Nat × Except String α))
    (acc : Option (Nat × String)) (h : ps.foldl promiseStep acc = none) :
    acc = none ∧ ∀ p ∈ ps, ∃ a, p.2 = Except.ok a := by
  induction ps generalizing acc with
  | nil => exact ⟨h, by simp⟩
  | cons p rest ih =>
    rw [List.foldl_cons] at h
    obtain ⟨hstep, hrest⟩ := ih (promiseStep acc p) h
    have hp : ∃ a, p.2 = Except.ok a := by
      unfold promiseStep at hstep
      cases hi : p.2 with
      | ok a => exact ⟨a, rfl⟩
      | error e =>
        rw [hi] at hstep
        cases acc with
        | none => simp at hstep
        | some q =>
          by_cases ht : p.1 < q.1 <;> simp [ht] at hstep
    have hacc : acc = none := by
      unfold promiseStep at hstep
      obtain ⟨a, ha⟩ := hp
      rw [ha] at hstep
      exact hstep
    exact ⟨hacc, fun q hq => by
      rcases List.mem_cons.mp hq with hq1 | hq1
      · rw [hq1]; exact hp
      · exact hrest q hq1⟩

lemma promiseAll_ok_inv {α : Type} {ps : List (Nat × Except String α)} {vs : List α}
    (h : promiseAll ps = .ok vs) :
    (∀ p ∈ ps, ∃ a, p.2 = Except.ok a)
    ∧ vs = ps.filterMap (fun p => p.2.toOption) := by
  unfold promiseAll at h
  cases hfr : firstRejection ps <;> rw [hfr] at h
  · refine ⟨?_, by simpa using h.symm⟩
    unfold firstRejection at hfr
    have hfold : ps.foldl promiseStep none = none := by
      cases hf : ps.foldl promiseStep none
      · rfl
      · rw [hf] at hfr; simp at hfr
    exact (foldl_promiseStep_eq_none ps none hfold).2
  · simp at h

lemma promiseAll_map_uploadChunk_ok (env : Nat → PartPutResponse)
    (batch : List FileChunk) (h : ∀ c ∈ batch, uploadOk env c = true) :
    promiseAll (batch.map fun c => ((env c.index).time, uploadChunk env c)) =
      .ok (batch.map (etagValue env)) := by
  have hall : ∀ p ∈ batch.map fun c => ((env c.index).time, uploadChunk env c),
      ∃ a, p.2 = Except.ok a := by
    intro p hp
    obtain ⟨c, hc, hpc⟩ := List.mem_map.mp hp
    exact ⟨etagValue env c, by rw [← hpc]; exact uploadChunk_eq_ok (h c hc)⟩
  unfold promiseAll firstRejection
  rw [foldl_promiseStep_of_ok _ none hall]
  simp only [Option.map_none']
  congr 1
  clear hall
  induction batch with
  | nil => rfl
  | cons c rest ih =>
    have hhead : (uploadChunk env c).toOption = some (etagValue env c) := by
      rw [uploadChunk_eq_ok (h c (by simp)), toOption_ok]
    rw [List.map_cons, List.map_cons, List.filterMap_cons]
    simp only [hhead]
    rw [ih (fun d hd => h d (by simp [hd]))]

lemma promiseAll_parts_partNumbers {env : Nat → PartPutResponse}
    {batch : List FileChunk} {vs : List UploadedPart}
    (h : promiseAll (batch.map fun c => ((env c.index).time, uploadChunk env c)) = .ok vs) :
    vs.map UploadedPart.partNumber = batch.map FileChunk.index
    ∧ vs.length = batch.length := by
  obtain ⟨hall, hv⟩ := promiseAll_ok_inv h
  subst hv
  clear h
  induction batch with
  | nil => simp
  | cons c rest ih =>
    have hc : ∃ a, uploadChunk env c = Except.ok a := by
      have := hall ((env c.index).time, uploadChunk env c) (by simp)
      simpa using this
    obtain ⟨a, ha⟩ := hc
    have hpn : a.partNumber = c.index := uploadChunk_ok_partNumber ha
    have hhead : (uploadChunk env c).toOption = some a := by
      rw [ha, toOption_ok]
    have hall' : ∀ p ∈ rest.map fun c => ((env c.index).time, uploadChunk env c),
        ∃ b, p.2 = Except.ok b :=
      fun p hp => hall p (by rw [List.map_cons]; exact List.mem_cons_of_mem _ hp)
    obtain ⟨ih1, ih2⟩ := ih hall'
    rw [List.map_cons, List.filterMap_cons]
    simp only [hhead]
    constructor
    · rw [List.map_cons, List.map_cons, hpn, ih1]
    · simp only [List.length_cons, ih2]

lemma ceil_div_step {c K : Nat} (hK : 0 < K) (hc : 0 < c) :
    (c + K - 1) / K = (c - K + K - 1) / K + 1 := by
  by_cases h : K < c
  · have h1 : c - K + K - 1 = c - 1 := by omega
    have h2 : c + K - 1 = (c - 1) + K := by omega
    rw [h1, h2, Nat.add_div_right _ hK]
  · have h1 : c - K = 0 := by omega
    have h2 : (0 + K - 1) / K = 0 := Nat.div_eq_of_lt (by omega)
    have h3 : c + K - 1 = (c - 1) + K := by omega
    rw [h1, h2, h3, Nat.add_div_right _ hK, Nat.div_eq_of_lt (show c - 1 < K by omega)]

lemma batchEventsSpec_length (tB tC K : Nat) (hK : 0 < K) (chunks : List FileChunk)
    (ub n : Nat) :
    (batchEventsSpec tB tC K chunks ub n).length = (chunks.length + K - 1) / K := by
  by_cases hnil : chunks = []
  · subst hnil
    rw [batchEventsSpec, dif_pos (Or.inl rfl)]
    simp [Nat.div_eq_of_lt (show K - 1 < K by omega)]
  · have hguard : ¬(chunks = [] ∨ K = 0) := by push_neg; exact ⟨hnil, by omega⟩
    rw [batchEventsSpec, dif_neg hguard]
    have hpos : 0 < chunks.length := List.length_pos.mpr hnil
    rw [List.length_cons,
      batchEventsSpec_length tB tC K hK (chunks.drop K) _ _,
      List.length_drop, ceil_div_step hK hpos]
termination_by chunks.length
decreasing_by
  simp only [List.length_drop]
  have := List.length_pos.mpr hnil
  omega

lemma toBatches_length (K : Nat) (hK : 0 < K) (chunks : List FileChunk) :
    (toBatches K chunks).length = (chunks.length + K - 1) / K := by
  by_cases hnil : chunks = []
  · subst hnil
    rw [toBatches, dif_pos (Or.inl rfl)]
    simp [Nat.div_eq_of_lt (show K - 1 < K by omega)]
  · have hguard : ¬(chunks = [] ∨ K = 0) := by push_neg; exact ⟨hnil, by omega⟩
    rw [toBatches, dif_neg hguard]
    have hpos : 0 < chunks.length := List.length_pos.mpr hnil
    rw [List.length_cons, toBatches_length K hK (chunks.drop K),
      List.length_drop, ceil_div_step hK hpos]
termination_by chunks.length
decreasing_by
  simp only [List.length_drop]
  have := List.length_pos.mpr hnil
  omega

lemma toBatches_flatten (K : Nat) (hK : 0 < K) (chunks : List FileChunk) :
    (toBatches K chunks).flatten = chunks := by
  by_cases hnil : chunks = []
  · subst hnil
    rw [toBatches, dif_pos (Or.inl rfl)]
    rfl
  · have hguard : ¬(chunks = [] ∨ K = 0) := by push_neg; exact ⟨hnil, by omega⟩
    rw [toBatches, dif_neg hguard]
    rw [List.flatten_cons, toBatches_flatten K hK (chunks.drop K), List.take_append_drop]
termination_by chunks.length
decreasing_by
  simp only [List.length_drop]
  have := List.length_pos.mpr hnil
  omega

lemma toBatches_mem_length_le (K : Nat) (chunks : List FileChunk)
    (b : List FileChunk) (hb : b ∈ toBatches K chunks) : b.length ≤ K := by
  by_cases hguard : chunks = [] ∨ K = 0
  · rw [toBatches, dif_pos hguard] at hb
    simp at hb
  · rw [toBatches, dif_neg hguard] at hb
    rcases List.mem_cons.mp hb with hb1 | hb1
    · rw [hb1]
      simp only [List.length_take]
      omega
    · exact toBatches_mem_length_le K (chunks.drop K) b hb1
termination_by chunks.length
decreasing_by
  simp only [List.length_drop]
  have h1 : chunks ≠ [] := by tauto
  have h2 : K ≠ 0 := by tauto
  have := List.length_pos.mpr h1
  omega

lemma uploadBatchesGo_ok (env : Nat → PartPutResponse) (K tB tC : Nat) (hK : 0 < K)
    (chunks : List FileChunk) (urls : List PresignedUrlResponse)
    (results : List UploadedPart) (ub : Nat) (events : List UploadProgress)
    (hlen : chunks.length ≤ urls.length)
    (hok : ∀ c ∈ chunks, uploadOk env c = true) :
    uploadBatchesGo env K tB tC chunks urls results ub events =
      (events ++ batchEventsSpec tB tC K chunks ub results.length,
        Except.ok (results ++ chunks.map (etagValue env))) := by
  by_cases hnil : chunks = []
  · subst hnil
    rw [uploadBatchesGo, dif_pos (Or.inl rfl), batchEventsSpec, dif_pos (Or.inl rfl)]
    simp
  · have hguard : ¬(chunks = [] ∨ K = 0) := by push_neg; exact ⟨hnil, by omega⟩
    rw [uploadBatchesGo, dif_neg hguard]
    have hble : ¬ ((urls.take K).length < (chunks.take K).length) := by
      simp only [List.length_take]
      omega
    rw [if_neg hble]
    have hpa := promiseAll_map_uploadChunk_ok env (chunks.take K)
      (fun c hc => hok c (List.take_subset K chunks hc))
    have hdroplen : (chunks.drop K).length ≤ (urls.drop K).length := by
      simp only [List.length_drop]
      omega
    have hdropok : ∀ c ∈ chunks.drop K, uploadOk env c = true :=
      fun c hc => hok c (List.drop_subset K chunks hc)
    simp only [hpa]
    rw [uploadBatchesGo_ok env K tB tC hK (chunks.drop K) (urls.drop K) _ _ _ hdroplen hdropok]
    conv_rhs => rw [batchEventsSpec, dif_neg hguard]
    rw [List.append_cons]
    simp [List.append_assoc, List.length_append, List.length_map,
      ← List.map_append, List.take_append_drop]
termination_by chunks.length
decreasing_by
  simp only [List.length_drop]
  have := List.length_pos.mpr hnil
  omega

lemma batchEventsSpec_getElemOpt (tB tC K : Nat) (hK : 0 < K)
    (chunks : List FileChunk) (ub n j : Nat)
    (h : j < (batchEventsSpec tB tC K chunks ub n).length) :
    (batchEventsSpec tB tC K chunks ub n)[j]? =
      some (UploadProgress.mk
        (ub + ((chunks.take ((j + 1) * K)).map FileChunk.size).sum)
        tB
        (roundPercent (ub + ((chunks.take ((j + 1) * K)).map FileChunk.size).sum) tB)
        (n + min chunks.length ((j + 1) * K))
        tC) := by
  by_cases hguard : chunks = [] ∨ K = 0
  · rw [batchEventsSpec, dif_pos hguard] at h
    simp at h
  · rw [batchEventsSpec, dif_neg hguard] at h ⊢
    cases j with
    | zero =>
      simp only [List.getElem?_cons_zero, one_mul, Nat.zero_add]
      have hmin : min chunks.length K = min K chunks.length := Nat.min_comm _ _
      simp [List.length_take, hmin]
    | succ j' =>
      simp only [List.getElem?_cons_succ]
      rw [batchEventsSpec_getElemOpt tB tC K hK (chunks.drop K) _ _ j'
        (by simpa using h)]
      have hmul : (j' + 1 + 1) * K = K + (j' + 1) * K := by ring
      rw [hmul, List.take_add, List.map_append, List.sum_append]
      have hb : ub + ((chunks.take K).map FileChunk.size).sum
            + (((chunks.drop K).take ((j' + 1) * K)).map FileChunk.size).sum
          = ub + (((chunks.take K).map FileChunk.size).sum
            + (((chunks.drop K).take ((j' + 1) * K)).map FileChunk.size).sum) := by
        omega
      rw [hb]
      congr 2
      simp only [List.length_take, List.length_drop]
      omega
termination_by chunks.length
decreasing_by
  simp only [List.length_drop]
  have h1 : chunks ≠ [] := by tauto
  have := List.length_pos.mpr h1
  omega

lemma batchEventsSpec_getElem (tB tC K : Nat) (hK : 0 < K)
    (chunks : List FileChunk) (ub n j : Nat)
    (h : j < (batchEventsSpec tB tC K chunks ub n).length) :
    (batchEventsSpec tB tC K chunks ub n)[j] =
      UploadProgress.mk
        (ub + ((chunks.take ((j + 1) * K)).map FileChunk.size).sum)
        tB
        (roundPercent (ub + ((chunks.take ((j + 1) * K)).map FileChunk.size).sum) tB)
        (n + min chunks.length ((j + 1) * K))
        tC := by
  have h1 := batchEventsSpec_getElemOpt tB tC K hK chunks ub n j h
  rw [List.getElem?_eq_getElem h] at h1
  exact Option.some_injective _ h1

/-- The ordering the progress stream is measured against: componentwise
non-decreasing in uploaded bytes, uploaded chunk count and percentage. -/
def progLe (a b : UploadProgress) : Prop :=
  a.uploadedBytes ≤ b.uploadedBytes ∧ a.uploadedChunks ≤ b.uploadedChunks
    ∧ a.percentage ≤ b.percentage

lemma uploadBatchesGo_chain (env : Nat → PartPutResponse) (K tB tC : Nat)
    (chunks : List FileChunk) (urls : List PresignedUrlResponse)
    (results : List UploadedPart) (ub : Nat) (events : List UploadProgress)
    (hchain : events.Chain' progLe)
    (hinv : ∀ e ∈ events, e.uploadedBytes ≤ ub ∧ e.uploadedChunks ≤ results.length
      ∧ e.percentage ≤ roundPercent ub tB) :
    ((uploadBatchesGo env K tB tC chunks urls results ub events).1).Chain' progLe := by
  by_cases hguard : chunks = [] ∨ K = 0
  · rw [uploadBatchesGo, dif_pos hguard]
    exact hchain
  · rw [uploadBatchesGo, dif_neg hguard]
    by_cases hble : (urls.take K).length < (chunks.take K).length
    · rw [if_pos hble]
      exact hchain
    · rw [if_neg hble]
      cases hpa : promiseAll ((chunks.take K).map fun c => ((env c.index).time, uploadChunk env c)) with
      | error e =>
        simp only [hpa]
        exact hchain
      | ok batchResults =>
        simp only [hpa]
        apply uploadBatchesGo_chain env K tB tC (chunks.drop K) (urls.drop K)
        · apply List.Chain'.append hchain (List.chain'_singleton _)
          intro x hx y hy
          have hxmem : x ∈ events := List.mem_of_mem_getLast? hx
          obtain ⟨h1, h2, h3⟩ := hinv x hxmem
          obtain rfl : UploadProgress.mk
              (ub + ((chunks.take K).map FileChunk.size).sum) tB
              (roundPercent (ub + ((chunks.take K).map FileChunk.size).sum) tB)
              (results ++ batchResults).length tC = y := by
            simpa using hy
          refine ⟨by simp; omega, by simp [List.length_append]; omega, ?_⟩
          exact le_trans h3 (roundPercent_mono tB (by omega))
        · intro e he
          rcases List.mem_append.mp he with he1 | he1
          · obtain ⟨h1, h2, h3⟩ := hinv e he1
            refine ⟨by omega, by simp [List.length_append]; omega, ?_⟩
            exact le_trans h3 (roundPercent_mono tB (by omega))
          · obtain rfl : UploadProgress.mk
                (ub + ((chunks.take K).map FileChunk.size).sum) tB
                (roundPercent (ub + ((chunks.take K).map FileChunk.size).sum) tB)
                (results ++ batchResults).length tC = e := by
              symm
              simpa using he1
            exact ⟨le_refl _, le_refl _, le_refl _⟩
termination_by chunks.length
decreasing_by
  simp only [List.length_drop]
  have h1 : chunks ≠ [] := by tauto
  have := List.length_pos.mpr h1
  omega

lemma uploadBatchesGo_ok_le (env : Nat → PartPutResponse) (K tB tC : Nat) (hK : 0 < K)
    (chunks : List FileChunk) (urls : List PresignedUrlResponse)
    (results : List UploadedPart) (ub : Nat) (events : List UploadProgress)
    (evs : List UploadProgress) (parts : List UploadedPart)
    (h : uploadBatchesGo env K tB tC chunks urls results ub events = (evs, Except.ok parts)) :
    chunks.length ≤ urls.length := by
  by_cases hguard : chunks = [] ∨ K = 0
  · have hnil : chunks = [] := by
      rcases hguard with h1 | h1
      · exact h1
      · omega
    rw [hnil]
    simp
  · rw [uploadBatchesGo, dif_neg hguard] at h
    by_cases hble : (urls.take K).length < (chunks.take K).length
    · rw [if_pos hble] at h
      simp at h
    · rw [if_neg hble] at h
      cases hpa : promiseAll ((chunks.take K).map fun c => ((env c.index).time, uploadChunk env c)) with
      | error e =>
        rw [hpa] at h
        simp at h
      | ok batchResults =>
        rw [hpa] at h
        have := uploadBatchesGo_ok_le env K tB tC hK (chunks.drop K) (urls.drop K)
          _ _ _ _ _ h
        simp only [List.length_take] at hble
        simp only [List.length_drop] at this
        omega
termination_by chunks.length
decreasing_by
  simp only [List.length_drop]
  have h1 : chunks ≠ [] := by tauto
  have := List.length_pos.mpr h1
  omega

lemma uploadBatchesGo_partNumbers (env : Nat → PartPutResponse) (K tB tC : Nat) (hK : 0 < K)
    (chunks : List FileChunk) (urls : List PresignedUrlResponse)
    (results : List UploadedPart) (ub : Nat) (events : List UploadProgress)
    (evs : List UploadProgress) (parts : List UploadedPart)
    (h : uploadBatchesGo env K tB tC chunks urls results ub events = (evs, Except.ok parts)) :
    parts.map UploadedPart.partNumber =
      results.map UploadedPart.partNumber ++ chunks.map FileChunk.index := by
  by_cases hguard : chunks = [] ∨ K = 0
  · have hnil : chunks = [] := by
      rcases hguard with h1 | h1
      · exact h1
      · omega
    subst hnil
    rw [uploadBatchesGo, dif_pos (Or.inl rfl)] at h
    have hp : parts = results := by
      have := congrArg Prod.snd h
      simpa using this.symm
    subst hp
    simp
  · rw [uploadBatchesGo, dif_neg hguard] at h
    by_cases hble : (urls.take K).length < (chunks.take K).length
    · rw [if_pos hble] at h
      simp at h
    · rw [if_neg hble] at h
      cases hpa : promiseAll ((chunks.take K).map fun c => ((env c.index).time, uploadChunk env c)) with
      | error e =>
        rw [hpa] at h
        simp at h
      | ok batchResults =>
        rw [hpa] at h
        have hrec := uploadBatchesGo_partNumbers env K tB tC hK (chunks.drop K) (urls.drop K)
          _ _ _ _ _ h
        have hbpn := (promiseAll_parts_partNumbers hpa).1
        rw [hrec, List.map_append, hbpn, List.append_assoc, ← List.map_append,
          List.take_append_drop]
termination_by chunks.length
decreasing_by
  simp only [List.length_drop]
  have h1 : chunks ≠ [] := by tauto
  have := List.length_pos.mpr h1
  omega

/-- `MultipartUploadResult` of src/types.ts. -/
structure MultipartUploadResult where
  downloadURL : String
  uploadID : String
  key : String
deriving Repr, DecidableEq

deriving instance DecidableEq for Except

/-- Responses the three negotiation round-trips of `MultipartUploader.upload`
receive, plus the per-part PUT behaviour: `createOk`/`urlsOk`/`completeOk` are
the `response.ok` of the create-multipart-upload, generate-presigned-urls and
complete-multipart-upload calls; `uploadID`, `key` and `partSize` come from
the create response; `presignedUrls` is whatever list the server returns;
`maxConcurrentUploads` is the already-resolved concurrency limit (see
`resolveMaxConcurrentUploads`). -/
structure MultipartEnv where
  createOk : Bool
  uploadID : String
  key : String
  partSize : Nat
  urlsOk : Bool
  presignedUrls : List PresignedUrlResponse
  partPut : Nat → PartPutResponse
  maxConcurrentUploads : Nat
  completeOk : Bool
  downloadURL : String

/-- How one `MultipartUploader.upload` run ends: either an error was thrown
before the complete-multipart-upload request was issued, or that finalize
request was issued carrying `parts`, and then either succeeded or failed. -/
inductive UploadRun where
  | failedBeforeFinalize (events : List UploadProgress) (e : UploadErr)
  | finalizeCalled (events : List UploadProgress) (parts : List UploadedPart)
      (outcome : Except UploadErr MultipartUploadResult)
deriving Repr, DecidableEq

/-- The outer catch of `MultipartUploader.upload` rethrows `FileUploadError`s
unchanged and wraps anything else (here: the `TypeError`) into
`FileUploadError('Multipart upload failed: …')`. -/
def wrapUploadErr : UploadErr → UploadErr
  | .typeErr m => .fileUploadErr ("Multipart upload failed: " ++ m)
  | e => e

/-- `MultipartUploader.upload` (src/uploader.ts): create-multipart-upload,
slice the file with the server-chosen part size, request one presigned URL
per part number (the code sends `partNumbers = chunks.map(c => c.index)` and
accepts whatever list comes back — it never compares the counts), upload the
chunks, then issue the complete-multipart-upload call with the collected
`parts`. -/
def multipartUpload (env : MultipartEnv) (file : List Nat) : UploadRun :=
  if env.createOk then
    if env.urlsOk then
      match uploadChunksConcurrently env.partPut env.maxConcurrentUploads file.length
        (sliceFile file env.partSize) env.presignedUrls with
      | (events, .error e) => .failedBeforeFinalize events (wrapUploadErr e)
      | (events, .ok parts) =>
        .finalizeCalled events parts
          (if env.completeOk then
            .ok (MultipartUploadResult.mk env.downloadURL env.uploadID env.key)
          else .error (.fileUploadErr "Failed to complete upload"))
    else .failedBeforeFinalize [] (.fileUploadErr "Failed to generate presigned URLs")
  else .failedBeforeFinalize [] (.fileUploadErr "Failed to create multipart upload")

lemma sliceFile_zero (file : List Nat) : sliceFile file 0 = [] := by
  rw [sliceFile, sliceFileGo, dif_neg]
  intro hc
  exact absurd hc.2 (by omega)

lemma sliceFile_index_pairwise (file : List Nat) (P : Nat) :
    ((sliceFile file P).map FileChunk.index).Pairwise (· < ·) := by
  by_cases hP : 0 < P
  · rw [sliceFile_eq file hP, List.map_map]
    apply List.Pairwise.map (fun k => k + 1) (fun a b hab => by simpa using hab)
    exact List.pairwise_lt_range' 0 _
  · have h0 : P = 0 := by omega
    subst h0
    rw [sliceFile_zero]
    simp

/-- C4 — with concurrency limit `K > 0` (`maxConcurrentUploads`, default 3),
`N` chunks and enough signed URLs, the scheduler runs exactly `⌈N/K⌉`
sequential batches (the loop advances `i` by `K`, and the recursion makes the
strict batch barrier structural: the next batch's requests are only built
after `Promise.all` of the previous batch settles), the batches have at most
`K` chunks each and concatenate to the chunk list in ascending order; when
every part upload succeeds, exactly one progress event is emitted per batch
(`⌈N/K⌉` in total), the j-th carrying the cumulative uploaded bytes of the
first `j+1` batches, `uploadedChunks = min N ((j+1)·K)`, `totalChunks = N`,
`totalBytes` = the payload size, and the percentage rounded to the nearest
integer; the run returns one integrity token per chunk. -/
theorem c4_batching (env : Nat → PartPutResponse) (K fileSize : Nat)
    (chunks : List FileChunk) (urls : List PresignedUrlResponse)
    (hK : 0 < K) (hlen : chunks.length ≤ urls.length)
    (hok : ∀ c ∈ chunks, uploadOk env c = true) :
    (toBatches K chunks).length = (chunks.length + K - 1) / K
    ∧ (∀ b ∈ toBatches K chunks, b.length ≤ K)
    ∧ (toBatches K chunks).flatten = chunks
    ∧ (uploadChunksConcurrently env K fileSize chunks urls).1.length
        = (chunks.length + K - 1) / K
    ∧ (∀ j, (h : j < (uploadChunksConcurrently env K fileSize chunks urls).1.length) →
        (uploadChunksConcurrently env K fileSize chunks urls).1[j] =
          UploadProgress.mk
            (((chunks.take ((j + 1) * K)).map FileChunk.size).sum)
            fileSize
            (roundPercent (((chunks.take ((j + 1) * K)).map FileChunk.size).sum) fileSize)
            (min chunks.length ((j + 1) * K))
            chunks.length)
    ∧ (uploadChunksConcurrently env K fileSize chunks urls).2
        = Except.ok (chunks.map (etagValue env))
    ∧ resolveMaxConcurrentUploads none = 3 := by
  have hsortlen : (urls.mergeSort (fun a b => a.partNumber ≤ b.partNumber)).length
      = urls.length := List.length_mergeSort urls
  have hgo := uploadBatchesGo_ok env K fileSize chunks.length hK chunks
    (urls.mergeSort (fun a b => a.partNumber ≤ b.partNumber)) [] 0 []
    (by omega) hok
  have hfst : (uploadChunksConcurrently env K fileSize chunks urls).1
      = batchEventsSpec fileSize chunks.length K chunks 0 0 := by
    simp only [uploadChunksConcurrently]
    rw [hgo]
    simp
  have hsnd : (uploadChunksConcurrently env K fileSize chunks urls).2
      = Except.ok (chunks.map (etagValue env)) := by
    simp only [uploadChunksConcurrently]
    rw [hgo]
    simp
  refine ⟨toBatches_length K hK chunks, toBatches_mem_length_le K chunks,
    toBatches_flatten K hK chunks, ?_, ?_, hsnd, rfl⟩
  · rw [hfst, batchEventsSpec_length fileSize chunks.length K hK chunks 0 0]
  · intro j h
    have h' : j < (batchEventsSpec fileSize chunks.length K chunks 0 0).length := by
      rw [← hfst]
      exact h
    have hopt := batchEventsSpec_getElemOpt fileSize chunks.length K hK chunks 0 0 j h'
    have hopt' : (uploadChunksConcurrently env K fileSize chunks urls).1[j]? =
        some (UploadProgress.mk
          (0 + ((chunks.take ((j + 1) * K)).map FileChunk.size).sum)
          fileSize
          (roundPercent (0 + ((chunks.take ((j + 1) * K)).map FileChunk.size).sum) fileSize)
          (0 + min chunks.length ((j + 1) * K))
          chunks.length) := by
      rw [hfst]
      exact hopt
    rw [List.getElem?_eq_getElem h] at hopt'
    have := Option.some_injective _ hopt'
    simpa using this

/-- Witness for C4: two chunks of sizes 2 and 1 with `K = 1` and two signed
URLs produce `⌈2/1⌉ = 2` batches, and the run returns one token per chunk. -/
theorem c4_batching_witness :
    0 < 1 ∧ ([⟨1, 0, 2, 2, [0, 1]⟩, ⟨2, 2, 3, 1, [2]⟩] : List FileChunk).length ≤ 2
    ∧ (toBatches 1 [⟨1, 0, 2, 2, [0, 1]⟩, ⟨2, 2, 3, 1, [2]⟩]).length = (2 + 1 - 1) / 1
    ∧ (uploadChunksConcurrently (fun i => ⟨i, true, some "e"⟩) 1 3
        [⟨1, 0, 2, 2, [0, 1]⟩, ⟨2, 2, 3, 1, [2]⟩] [⟨1, "u1"⟩, ⟨2, "u2"⟩]).2
      = Except.ok (([⟨1, 0, 2, 2, [0, 1]⟩, ⟨2, 2, 3, 1, [2]⟩] : List FileChunk).map
          (etagValue (fun i => ⟨i, true, some "e"⟩))) := by
  refine ⟨by decide, by decide, ?_, ?_⟩
  · exact (c4_batching (fun i => ⟨i, true, some "e"⟩) 1 3
      [⟨1, 0, 2, 2, [0, 1]⟩, ⟨2, 2, 3, 1, [2]⟩]
      [⟨1, "u1"⟩, ⟨2, "u2"⟩] (by decide) (by decide) (by decide)).1
  · exact (c4_batching (fun i => ⟨i, true, some "e"⟩) 1 3
      [⟨1, 0, 2, 2, [0, 1]⟩, ⟨2, 2, 3, 1, [2]⟩]
      [⟨1, "u1"⟩, ⟨2, "u2"⟩] (by decide) (by decide) (by decide)).2.2.2.2.2.1

/-- C9 — for every environment (including runs in which a batch fails, where
the events already emitted stand), the progress events
`uploadChunksConcurrently` hands to the caller's callback form a sequence
that is monotonically non-decreasing in `uploadedBytes`, `uploadedChunks` and
`percentage` (consecutive events are related by `progLe`, which is transitive
componentwise, so the whole stream is non-decreasing). -/
theorem c9_progress_monotone (env : Nat → PartPutResponse) (K fileSize : Nat)
    (chunks : List FileChunk) (urls : List PresignedUrlResponse) :
    ((uploadChunksConcurrently env K fileSize chunks urls).1).Chain' progLe := by
  simp only [uploadChunksConcurrently]
  exact uploadBatchesGo_chain env K fileSize chunks.length chunks _ [] 0 []
    List.chain'_nil (by simp)

lemma multipartUpload_finalize (env : MultipartEnv) (file : List Nat)
    (hc : env.createOk = true) (hu : env.urlsOk = true)
    (evs : List UploadProgress) (parts : List UploadedPart)
    (hucc : uploadChunksConcurrently env.partPut env.maxConcurrentUploads file.length
      (sliceFile file env.partSize) env.presignedUrls = (evs, Except.ok parts)) :
    multipartUpload env file = .finalizeCalled evs parts
      (if env.completeOk then
        Except.ok (MultipartUploadResult.mk env.downloadURL env.uploadID env.key)
      else Except.error (.fileUploadErr "Failed to complete upload")) := by
  unfold multipartUpload
  rw [if_pos hc, if_pos hu, hucc]

lemma multipartUpload_abort (env : MultipartEnv) (file : List Nat)
    (hc : env.createOk = true) (hu : env.urlsOk = true)
    (evs : List UploadProgress) (e : UploadErr)
    (hucc : uploadChunksConcurrently env.partPut env.maxConcurrentUploads file.length
      (sliceFile file env.partSize) env.presignedUrls = (evs, Except.error e)) :
    multipartUpload env file = .failedBeforeFinalize evs (wrapUploadErr e) := by
  unfold multipartUpload
  rw [if_pos hc, if_pos hu, hucc]

/-- C2 — whenever a multipart upload reaches the finalize
(complete-multipart-upload) call, the `(partNumber, etag)` list it sends is
strictly ascending in part number, for every environment — in particular for
every assignment of completion times to the individual part PUTs, so the
order in which uploads complete within a batch is irrelevant (`Promise.all`
yields results in input order, and the scheduler appends batch results in
chunk order). -/
theorem c2_finalize_sorted (env : MultipartEnv) (file : List Nat)
    (events : List UploadProgress) (parts : List UploadedPart)
    (out : Except UploadErr MultipartUploadResult)
    (hK : 0 < env.maxConcurrentUploads)
    (h : multipartUpload env file = .finalizeCalled events parts out) :
    (parts.map UploadedPart.partNumber).Pairwise (· < ·) := by
  unfold multipartUpload at h
  by_cases hc : env.createOk = true
  · rw [if_pos hc] at h
    by_cases hu : env.urlsOk = true
    · rw [if_pos hu] at h
      rcases hres : uploadChunksConcurrently env.partPut env.maxConcurrentUploads file.length
        (sliceFile file env.partSize) env.presignedUrls with ⟨evs, res⟩
      rw [hres] at h
      cases res with
      | error e => simp at h
      | ok parts' =>
        simp only [UploadRun.finalizeCalled.injEq] at h
        obtain ⟨-, hp, -⟩ := h
        rw [← hp]
        have hgo : uploadBatchesGo env.partPut env.maxConcurrentUploads file.length
            (sliceFile file env.partSize).length (sliceFile file env.partSize)
            ((env.presignedUrls).mergeSort (fun a b => a.partNumber ≤ b.partNumber)) [] 0 []
            = (evs, Except.ok parts') := by
          simpa [uploadChunksConcurrently] using hres
        have hpn := uploadBatchesGo_partNumbers env.partPut env.maxConcurrentUploads
          file.length (sliceFile file env.partSize).length hK
          (sliceFile file env.partSize) _ [] 0 [] evs parts' hgo
        simp only [List.map_nil, List.nil_append] at hpn
        rw [hpn]
        exact sliceFile_index_pairwise file env.partSize
    · rw [if_neg hu] at h
      simp at h
  · rw [if_neg hc] at h
    simp at h

/-- Witness for C2: a concrete 3-byte upload with part size 2, three-way
concurrency and a healthy environment reaches finalize, and the parts list it
sends is strictly ascending in part number. -/
theorem c2_finalize_sorted_witness :
    0 < (3 : Nat)
    ∧ ∃ events parts out,
      multipartUpload
        ⟨true, "uid", "k", 2, true, [⟨1, "u1"⟩, ⟨2, "u2"⟩],
          (fun i => ⟨i, true, some "e"⟩), 3, true, "d"⟩ [0, 1, 2]
        = .finalizeCalled events parts out
      ∧ (parts.map UploadedPart.partNumber).Pairwise (· < ·) := by
  have hchunks : sliceFile [0, 1, 2] 2 = [⟨1, 0, 2, 2, [0, 1]⟩, ⟨2, 2, 3, 1, [2]⟩] := by
    rw [sliceFile_eq [0, 1, 2] (by decide)]
    decide
  have hok : ∀ c ∈ ([⟨1, 0, 2, 2, [0, 1]⟩, ⟨2, 2, 3, 1, [2]⟩] : List FileChunk),
      uploadOk (fun i => ⟨i, true, some "e"⟩) c = true := by decide
  have hlen : ([⟨1, 0, 2, 2, [0, 1]⟩, ⟨2, 2, 3, 1, [2]⟩] : List FileChunk).length ≤
      (([⟨1, "u1"⟩, ⟨2, "u2"⟩] : List PresignedUrlResponse).mergeSort
        (fun a b => a.partNumber ≤ b.partNumber)).length := by
    rw [List.length_mergeSort]
    decide
  have hgo := uploadBatchesGo_ok (fun i => ⟨i, true, some "e"⟩) 3 3
    ([⟨1, 0, 2, 2, [0, 1]⟩, ⟨2, 2, 3, 1, [2]⟩] : List FileChunk).length (by decide)
    [⟨1, 0, 2, 2, [0, 1]⟩, ⟨2, 2, 3, 1, [2]⟩]
    (([⟨1, "u1"⟩, ⟨2, "u2"⟩] : List PresignedUrlResponse).mergeSort
      (fun a b => a.partNumber ≤ b.partNumber)) [] 0 [] hlen hok
  have hucc : uploadChunksConcurrently (fun i => ⟨i, true, some "e"⟩) 3 3
      (sliceFile [0, 1, 2] 2) [⟨1, "u1"⟩, ⟨2, "u2"⟩]
      = (batchEventsSpec 3 2 3 [⟨1, 0, 2, 2, [0, 1]⟩, ⟨2, 2, 3, 1, [2]⟩] 0 0,
        Except.ok (([⟨1, 0, 2, 2, [0, 1]⟩, ⟨2, 2, 3, 1, [2]⟩] : List FileChunk).map
          (etagValue (fun i => ⟨i, true, some "e"⟩)))) := by
    simp only [uploadChunksConcurrently]
    rw [hchunks]
    simpa using hgo
  have heq := multipartUpload_finalize
    ⟨true, "uid", "k", 2, true, [⟨1, "u1"⟩, ⟨2, "u2"⟩],
      (fun i => ⟨i, true, some "e"⟩), 3, true, "d"⟩ [0, 1, 2] rfl rfl _ _ hucc
  exact ⟨by decide, _, _, _, heq,
    c2_finalize_sorted _ [0, 1, 2] _ _ _ (by decide) heq⟩

/-- Counterexample to C3 — the code never compares the number of returned
signed URLs with the number of requested part numbers: here the server
returns 2 URLs for 1 requested part number (a mismatch), yet the upload does
not fail with an upload error; it proceeds to the finalize call (the extra
URL is silently ignored). -/
theorem c3_counterexample :
    (([⟨1, "u1"⟩, ⟨2, "u2"⟩] : List PresignedUrlResponse)).length
      ≠ ((sliceFile [7] 1).map FileChunk.index).length
    ∧ ∃ events parts out,
      multipartUpload
        ⟨true, "uid", "k", 1, true, [⟨1, "u1"⟩, ⟨2, "u2"⟩],
          (fun i => ⟨i, true, some "e"⟩), 3, true, "d"⟩ [7]
        = .finalizeCalled events parts out := by
  have hchunks : sliceFile [7] 1 = [⟨1, 0, 1, 1, [7]⟩] := by
    rw [sliceFile_eq [7] (by decide)]
    decide
  constructor
  · rw [hchunks]
    decide
  · have hok : ∀ c ∈ ([⟨1, 0, 1, 1, [7]⟩] : List FileChunk),
        uploadOk (fun i => ⟨i, true, some "e"⟩) c = true := by decide
    have hlen : ([⟨1, 0, 1, 1, [7]⟩] : List FileChunk).length ≤
        (([⟨1, "u1"⟩, ⟨2, "u2"⟩] : List PresignedUrlResponse).mergeSort
          (fun a b => a.partNumber ≤ b.partNumber)).length := by
      rw [List.length_mergeSort]
      decide
    have hgo := uploadBatchesGo_ok (fun i => ⟨i, true, some "e"⟩) 3 1
      ([⟨1, 0, 1, 1, [7]⟩] : List FileChunk).length (by decide)
      [⟨1, 0, 1, 1, [7]⟩]
      (([⟨1, "u1"⟩, ⟨2, "u2"⟩] : List PresignedUrlResponse).mergeSort
        (fun a b => a.partNumber ≤ b.partNumber)) [] 0 [] hlen hok
    have hucc : uploadChunksConcurrently (fun i => ⟨i, true, some "e"⟩) 3 1
        (sliceFile [7] 1) [⟨1, "u1"⟩, ⟨2, "u2"⟩]
        = (batchEventsSpec 1 1 3 [⟨1, 0, 1, 1, [7]⟩] 0 0,
          Except.ok (([⟨1, 0, 1, 1, [7]⟩] : List FileChunk).map
            (etagValue (fun i => ⟨i, true, some "e"⟩)))) := by
      simp only [uploadChunksConcurrently]
      rw [hchunks]
      simpa using hgo
    exact ⟨_, _, _, multipartUpload_finalize
      ⟨true, "uid", "k", 1, true, [⟨1, "u1"⟩, ⟨2, "u2"⟩],
        (fun i => ⟨i, true, some "e"⟩), 3, true, "d"⟩ [7] rfl rfl _ _ hucc⟩

/-- C3 as amended — the authorize-parts phase never checks the counts; what
the code actually guarantees is: (1) if the server returns FEWER signed URLs
than there are chunks, the upload fails before finalize (the batch loop
evaluates `urlBatch[index].uploadURL` on `undefined`, and the resulting
`TypeError` is wrapped into a `FileUploadError` by the outer catch); (2) if
it returns at least as many, the count mismatch never causes a failure — with
every part PUT succeeding, the upload reaches finalize with exactly one
`(partNumber, etag)` pair per chunk, extra URLs being ignored. -/
theorem c3_url_count (env : MultipartEnv) (file : List Nat)
    (hK : 0 < env.maxConcurrentUploads)
    (hc : env.createOk = true) (hu : env.urlsOk = true) :
    (env.presignedUrls.length < (sliceFile file env.partSize).length →
      ∃ events e, multipartUpload env file = .failedBeforeFinalize events e)
    ∧ ((sliceFile file env.partSize).length ≤ env.presignedUrls.length →
        (∀ c ∈ sliceFile file env.partSize, uploadOk env.partPut c = true) →
        ∃ out, multipartUpload env file =
          .finalizeCalled
            (batchEventsSpec file.length (sliceFile file env.partSize).length
              env.maxConcurrentUploads (sliceFile file env.partSize) 0 0)
            ((sliceFile file env.partSize).map (etagValue env.partPut)) out) := by
  constructor
  · intro hlt
    rcases hres : uploadChunksConcurrently env.partPut env.maxConcurrentUploads file.length
      (sliceFile file env.partSize) env.presignedUrls with ⟨evs, res⟩
    cases res with
    | ok parts =>
      exfalso
      have hgo : uploadBatchesGo env.partPut env.maxConcurrentUploads file.length
          (sliceFile file env.partSize).length (sliceFile file env.partSize)
          ((env.presignedUrls).mergeSort (fun a b => a.partNumber ≤ b.partNumber)) [] 0 []
          = (evs, Except.ok parts) := by
        simpa [uploadChunksConcurrently] using hres
      have hle := uploadBatchesGo_ok_le env.partPut env.maxConcurrentUploads file.length
        (sliceFile file env.partSize).length hK (sliceFile file env.partSize)
        _ [] 0 [] evs parts hgo
      rw [List.length_mergeSort] at hle
      omega
    | error e =>
      exact ⟨evs, wrapUploadErr e, multipartUpload_abort env file hc hu evs e hres⟩
  · intro hle hok
    have hgo := uploadBatchesGo_ok env.partPut env.maxConcurrentUploads file.length
      (sliceFile file env.partSize).length hK (sliceFile file env.partSize)
      ((env.presignedUrls).mergeSort (fun a b => a.partNumber ≤ b.partNumber)) [] 0 []
      (by rw [List.length_mergeSort]; exact hle) hok
    have hucc : uploadChunksConcurrently env.partPut env.maxConcurrentUploads file.length
        (sliceFile file env.partSize) env.presignedUrls
        = (batchEventsSpec file.length (sliceFile file env.partSize).length
            env.maxConcurrentUploads (sliceFile file env.partSize) 0 0,
          Except.ok ((sliceFile file env.partSize).map (etagValue env.partPut))) := by
      simp only [uploadChunksConcurrently]
      simpa using hgo
    exact ⟨_, multipartUpload_finalize env file hc hu _ _ hucc⟩

/-- Witness for C3 (amended): with one chunk and an empty URL list (fewer
URLs than chunks) the upload aborts before finalize. -/
theorem c3_url_count_witness :
    0 < (3 : Nat)
    ∧ (([] : List PresignedUrlResponse)).length < (sliceFile [7] 1).length
    ∧ ∃ events e,
      multipartUpload
        ⟨true, "uid", "k", 1, true, [], (fun i => ⟨i, true, some "e"⟩), 3, true, "d"⟩ [7]
        = .failedBeforeFinalize events e := by
  have hlen1 : (sliceFile [7] 1).length = 1 := by
    rw [sliceFile_length [7] (by decide)]
    decide
  refine ⟨by decide, by simp [hlen1], ?_⟩
  exact (c3_url_count
    ⟨true, "uid", "k", 1, true, [], (fun i => ⟨i, true, some "e"⟩), 3, true, "d"⟩ [7]
    (by decide) rfl rfl).1 (by simp [hlen1])
